import Mathlib

/-!
Verification of the moving-average-crossover backtester core
(`backtester.py`): indicator calculation, signal generation, trade
simulation and performance metrics.

Modelling conventions:
* Prices and money are rationals (ℚ), idealising Python floats.
* A pandas NaN cell is `Option.none`; `df.dropna()` keeps the rows whose
  cells are all `some`.
* A Python exception (IndexError from `df.iloc[-1]` on an empty frame)
  is `Option.none` as the result of the corresponding function.
* The float divisions by zero in the source act on numpy float64 values,
  which do not raise: they warn and produce inf/nan, values that ℚ cannot
  represent.  The model abstains with `Option.none` on exactly those
  branches, so no theorem below states anything about them.
* Float floor division `a // b` (away from a zero divisor) is
  `⌊a / b⌋ : ℤ`.
* Dates are natural numbers (the claims never use calendar structure).
-/

namespace Backtester

/-- A row of the input price frame: date index and Close column. -/
structure PriceRow where
  date : ℕ
  close : ℚ
deriving DecidableEq, Repr

/-- A row after `calculate_moving_averages`: the two rolling-mean columns,
`none` while the trailing window is incomplete (pandas NaN). -/
structure IndRow where
  date : ℕ
  close : ℚ
  smaShort : Option ℚ
  smaLong : Option ℚ
deriving DecidableEq, Repr

/-- A row after `generate_signals`: the Signal column (0 / 1 / -1) and the
Position column (`Signal.diff()`, `none` on the first row). -/
structure SigRow where
  date : ℕ
  close : ℚ
  smaShort : Option ℚ
  smaLong : Option ℚ
  signal : ℤ
  position : Option ℤ
deriving DecidableEq, Repr

/-- An entry of the `trades` list built by `simulate_trades`.  A BUY dict
has keys Type/Date/Price/Shares; a SELL dict additionally has
Profit/Profit_Pct, hence two constructors. -/
inductive Trade where
  | buy (date : ℕ) (price : ℚ) (shares : ℤ)
  | sell (date : ℕ) (price : ℚ) (shares : ℤ) (profit : ℚ) (profit_pct : ℚ)
deriving DecidableEq, Repr

/-- An entry of the `portfolio_values` list: {"Date": date, "Value": value}. -/
structure Snapshot where
  date : ℕ
  value : ℚ
deriving DecidableEq, Repr

/-- The mutable local state of the `simulate_trades` loop:
`capital`, `shares`, `trades`, `portfolio_values`, `in_position`,
`entry_price`, `entry_date`. -/
structure SimState where
  capital : ℚ
  shares : ℤ
  trades : List Trade
  portfolio_values : List Snapshot
  in_position : Bool
  entry_price : ℚ
  entry_date : Option ℕ
deriving DecidableEq, Repr

/-- The dictionary returned by `simulate_trades`. -/
structure SimResult where
  trades : List Trade
  portfolio_values : List Snapshot
  final_value : ℚ
  initial_capital : ℚ
  shares_held : ℤ
  cash : ℚ
  in_position : Bool
  unrealized_profit : ℚ
  unrealized_pct : ℚ
deriving DecidableEq, Repr

/-- The dictionary returned by `calculate_metrics`. -/
structure Metrics where
  total_return : ℚ
  num_trades : ℕ
  win_rate : ℚ
  max_drawdown : ℚ
  final_value : ℚ
  initial_capital : ℚ
deriving DecidableEq, Repr

/-- `series.rolling(window=w).mean()` at index `i`: the arithmetic mean of
the `w` values ending at `i`, `none` (NaN) while fewer than `w`
observations exist.  pandas requires `w ≥ 1`; `w = 0` never yields a
defined cell. -/
def rollingMean (w : ℕ) (closes : List ℚ) (i : ℕ) : Option ℚ :=
  if 0 < w ∧ w ≤ i + 1 then
    some ((((closes.take (i + 1)).drop (i + 1 - w)).sum) / (w : ℚ))
  else
    none

/-- Helper for `calculate_moving_averages`: walk the rows carrying the
current index `i` into the full Close column. -/
def maRows (closes : List ℚ) (short_window long_window : ℕ) :
    ℕ → List PriceRow → List IndRow
  | _, [] => []
  | i, p :: ps =>
    { date := p.date, close := p.close,
      smaShort := rollingMean short_window closes i,
      smaLong := rollingMean long_window closes i } ::
      maRows closes short_window long_window (i + 1) ps

/-- `calculate_moving_averages`: add the SMA_Short and SMA_Long columns. -/
def calculate_moving_averages (prices : List PriceRow) (short_window long_window : ℕ) :
    List IndRow :=
  maRows (prices.map PriceRow.close) short_window long_window 0 prices

/-- The Signal column of `generate_signals`: 0 everywhere, then 1 where
SMA_Short > SMA_Long and -1 where SMA_Short <= SMA_Long.  A comparison
with NaN is false in pandas, so a row with an undefined MA keeps 0. -/
def signalOf (s l : Option ℚ) : ℤ :=
  match s, l with
  | some a, some b => if b < a then 1 else -1
  | _, _ => 0

/-- Helper for `generate_signals`: walk the rows carrying the previous
row's signal, so that Position = Signal.diff() (NaN on the first row). -/
def genRows (prev : Option ℤ) : List IndRow → List SigRow
  | [] => []
  | r :: rs =>
    let sg := signalOf r.smaShort r.smaLong
    { date := r.date, close := r.close, smaShort := r.smaShort,
      smaLong := r.smaLong, signal := sg,
      position := prev.map fun p => sg - p } :: genRows (some sg) rs

/-- `generate_signals`: add the Signal and Position columns. -/
def generate_signals (ind : List IndRow) : List SigRow :=
  genRows none ind

/-- `df.dropna()` keeps a row iff none of its cells is NaN: here the two
MA columns and the Position column (Date, Close and Signal are never NaN). -/
def keepRow (r : SigRow) : Bool :=
  r.smaShort.isSome && r.smaLong.isSome && r.position.isSome

/-- The frame the `simulate_trades` loop iterates over: `df.dropna()`. -/
def simFilter (rows : List SigRow) : List SigRow :=
  rows.filter keepRow

/-- The state at the top of the `simulate_trades` loop:
cash = initial capital, no shares, empty logs, not in position. -/
def initState (initial_capital : ℚ) : SimState :=
  { capital := initial_capital, shares := 0, trades := [],
    portfolio_values := [], in_position := false, entry_price := 0,
    entry_date := none }

/-- One iteration of the `simulate_trades` loop on row `r`:
record the portfolio snapshot, then apply the BUY branch
(Position == 2 and not in_position), else the SELL branch
(Position == -2 and in_position), else nothing.
The two divisions, `capital // price` in the BUY branch and
`(p - entry) / entry` in the SELL branch, are numpy float64 operations:
with a zero divisor they warn and produce inf/nan instead of raising.
ℚ cannot represent those values, so the model abstains with `none` on
exactly those two zero-divisor branches and no theorem relies on them. -/
def stepTrade (s : SimState) (r : SigRow) : Option SimState :=
  let current_price := r.close
  let portfolio_value := s.capital + (s.shares : ℚ) * current_price
  let s1 : SimState :=
    { s with portfolio_values :=
        s.portfolio_values ++ [⟨r.date, portfolio_value⟩] }
  if r.position = some 2 ∧ s1.in_position = false then
    if current_price = 0 then none
    else
      let sh : ℤ := ⌊s1.capital / current_price⌋
      if 0 < sh then
        some { s1 with
          capital := s1.capital - (sh : ℚ) * current_price,
          shares := sh,
          in_position := true,
          entry_price := current_price,
          entry_date := some r.date,
          trades := s1.trades ++ [Trade.buy r.date current_price sh] }
      else
        some { s1 with shares := sh }
  else if r.position = some (-2) ∧ s1.in_position = true then
    if s1.entry_price = 0 then none
    else
      some { s1 with
        capital := s1.capital + (s1.shares : ℚ) * current_price,
        trades := s1.trades ++
          [Trade.sell r.date current_price s1.shares
            ((current_price - s1.entry_price) * (s1.shares : ℚ))
            ((current_price - s1.entry_price) / s1.entry_price * 100)],
        shares := 0,
        in_position := false,
        entry_price := 0,
        entry_date := none }
  else
    some s1

/-- The whole `simulate_trades` loop. -/
def runSim (s : SimState) : List SigRow → Option SimState
  | [] => some s
  | r :: rs =>
    match stepTrade s r with
    | none => none
    | some s1 => runSim s1 rs

/-- `simulate_trades`: dropna, run the loop, then the finalisation code.
`df.iloc[-1]["Close"]` raises IndexError on an empty frame, modelled by
`none`.  The unrealised-P&amp;L division by a zero `entry_price` would be a
numpy float64 division producing inf/nan; the model abstains with `none`
there as well. -/
def simulate_trades (rows : List SigRow) (initial_capital : ℚ) : Option SimResult :=
  let df := simFilter rows
  match runSim (initState initial_capital) df with
  | none => none
  | some s =>
    match df.getLast? with
    | none => none
    | some lastRow =>
      let final_price := lastRow.close
      let final_value := s.capital + (s.shares : ℚ) * final_price
      if s.in_position then
        if s.entry_price = 0 then none
        else
          some { trades := s.trades, portfolio_values := s.portfolio_values,
                 final_value := final_value, initial_capital := initial_capital,
                 shares_held := s.shares, cash := s.capital,
                 in_position := s.in_position,
                 unrealized_profit := (final_price - s.entry_price) * (s.shares : ℚ),
                 unrealized_pct := (final_price - s.entry_price) / s.entry_price * 100 }
      else
        some { trades := s.trades, portfolio_values := s.portfolio_values,
               final_value := final_value, initial_capital := initial_capital,
               shares_held := s.shares, cash := s.capital,
               in_position := s.in_position,
               unrealized_profit := 0, unrealized_pct := 0 }

/-- t["Type"] == "SELL". -/
def isSell : Trade → Bool
  | .sell _ _ _ _ _ => true
  | .buy _ _ _ => false

/-- t["Profit"].  Only SELL dicts carry the key; the metrics code reads it
only after filtering on isSell, so the BUY value is never consumed. -/
def tradeProfit : Trade → ℚ
  | .sell _ _ _ pr _ => pr
  | .buy _ _ _ => 0

/-- num_trades: the number of SELL entries of the trade list. -/
def numTradesOf (trades : List Trade) : ℕ :=
  (trades.filter isSell).length

/-- win_rate: profitable SELLs over all SELLs times 100, 0 when there is
no SELL. -/
def winRateOf (trades : List Trade) : ℚ :=
  let sell_trades := trades.filter isSell
  if 0 < sell_trades.length then
    ((sell_trades.filter fun t => 0 < tradeProfit t).length : ℚ) /
      (sell_trades.length : ℚ) * 100
  else 0

/-- The larger of two rationals (an executable spelling of max). -/
def maxQ (a b : ℚ) : ℚ := if a ≤ b then b else a

/-- The smaller of two rationals (an executable spelling of min). -/
def minQ (a b : ℚ) : ℚ := if a ≤ b then a else b

/-- `Series.cummax()` given the running maximum so far. -/
def cummaxFrom (m : ℚ) : List ℚ → List ℚ
  | [] => []
  | v :: vs => maxQ m v :: cummaxFrom (maxQ m v) vs

/-- `portfolio_df["Value"].cummax()`. -/
def cummax : List ℚ → List ℚ
  | [] => []
  | v :: vs => v :: cummaxFrom v vs

/-- The Drawdown column: (Value - Peak) / Peak * 100 columnwise.  (The
pandas columnwise division never raises; ℚ division agrees with it
wherever Peak ≠ 0.) -/
def drawdownsOf (values : List ℚ) : List ℚ :=
  List.zipWith (fun v p => (v - p) / p * 100) values (cummax values)

/-- max_drawdown: the minimum of the Drawdown column, 0 when the frame is
empty. -/
def maxDrawdownOf (values : List ℚ) : ℚ :=
  match drawdownsOf values with
  | [] => 0
  | d :: ds => ds.foldl minQ d

/-- `calculate_metrics`.  The total-return line divides by
initial_capital; when it is zero that numpy float64 division warns and
produces inf/nan, which ℚ cannot represent, so the model abstains with
`none` there. -/
def calculate_metrics (res : SimResult) : Option Metrics :=
  if res.initial_capital = 0 then none
  else
    some { total_return :=
             (res.final_value - res.initial_capital) / res.initial_capital * 100,
           num_trades := numTradesOf res.trades,
           win_rate := winRateOf res.trades,
           max_drawdown := maxDrawdownOf (res.portfolio_values.map Snapshot.value),
           final_value := res.final_value,
           initial_capital := res.initial_capital }

/-- Spec-side peak: the cumulative maximum of the values up to index t
(the running peak of portfolio value), written independently of the
cummax column so the code's computation can be compared against it. -/
def specPeak : List ℚ → ℕ → ℚ
  | [], _ => 0
  | v :: _, 0 => v
  | v :: vs, t + 1 => max v (specPeak vs t)

/-- Spec-side drawdown at index t: (value(t) - peak(t)) / peak(t) * 100. -/
def specDrawdown (values : List ℚ) (t : ℕ) : ℚ :=
  (values.getD t 0 - specPeak values t) / specPeak values t * 100

/-- Replay the trade log: from flat only a BUY is legal, from long only a
SELL is; the result is the open/flat flag after the log, `none` if the
log does not strictly alternate BUY, SELL, BUY, ... from a flat start. -/
def logOpen : Bool → List Trade → Option Bool
  | b, [] => some b
  | false, .buy _ _ _ :: ts => logOpen true ts
  | true, .sell _ _ _ _ _ :: ts => logOpen false ts
  | _, _ => none

/-- The simulation-state invariant: non-negative cash, non-negative
share count, in_position exactly when shares are held, the held shares
are exactly what the cash at entry could purchase at the entry price
(so the remaining cash cannot buy one more share), and the trade log
strictly alternates BUY, SELL, ... with the last trade a BUY exactly
when a position is open. -/
def SimInv (s : SimState) : Prop :=
  0 ≤ s.capital ∧ 0 ≤ s.shares ∧
  (s.in_position = true ↔ 0 < s.shares) ∧
  (s.in_position = true →
    0 < s.entry_price ∧
    s.shares = ⌊(s.capital + (s.shares : ℚ) * s.entry_price) / s.entry_price⌋) ∧
  logOpen false s.trades = some s.in_position

/-! Helper lemmas. -/

theorem genRows_signal (ind : List IndRow) :
    ∀ prev r, r ∈ genRows prev ind → r.signal = signalOf r.smaShort r.smaLong := by
  induction ind with
  | nil => intro prev r hr; simp [genRows] at hr
  | cons x xs ih =>
    intro prev r hr
    rw [genRows] at hr
    rcases List.mem_cons.mp hr with h | h
    · subst h; rfl
    · exact ih _ r h

theorem maRows_eq_windows (closes : List ℚ) (w : ℕ) :
    ∀ i ps, ∀ x ∈ maRows closes w w i ps, x.smaShort = x.smaLong := by
  intro i ps
  induction ps generalizing i with
  | nil => intro x hx; simp [maRows] at hx
  | cons p ps ih =>
    intro x hx
    rw [maRows] at hx
    rcases List.mem_cons.mp hx with h | h
    · subst h; rfl
    · exact ih _ x h

theorem genRows_small (ind : List IndRow) :
    ∀ prev, (∀ x ∈ ind, x.smaShort = x.smaLong) →
      (∀ p, prev = some p → p = 0 ∨ p = -1) →
      ∀ r ∈ genRows prev ind, ∀ q, r.position = some q →
        q = -1 ∨ q = 0 ∨ q = 1 := by
  induction ind with
  | nil => intro prev _ _ r hr; simp [genRows] at hr
  | cons x xs ih =>
    intro prev hind hprev r hr q hq
    have hsg : signalOf x.smaShort x.smaLong = 0 ∨ signalOf x.smaShort x.smaLong = -1 := by
      rw [hind x (List.mem_cons_self x xs)]
      cases x.smaLong with
      | none => left; rfl
      | some v => right; simp [signalOf]
    rw [genRows] at hr
    rcases List.mem_cons.mp hr with h | h
    · subst h
      cases prev with
      | none => simp at hq
      | some p =>
        simp only [Option.map_some'] at hq
        rw [Option.some.injEq] at hq
        rcases hprev p rfl with hp | hp <;> rcases hsg with hs | hs <;>
          (subst hp; rw [hs] at hq; omega)
    · refine ih (some (signalOf x.smaShort x.smaLong))
        (fun y hy => hind y (List.mem_cons_of_mem x hy)) ?_ r h q hq
      intro p hp
      rw [Option.some.injEq] at hp
      subst hp
      rcases hsg with hs | hs <;> simp [hs]

theorem runSim_no_buy (l : List SigRow) :
    ∀ s, (∀ r ∈ l, r.position ≠ some 2) → s.in_position = false →
      ∃ s', runSim s l = some s' ∧ s'.in_position = false ∧ s'.trades = s.trades := by
  induction l with
  | nil => intro s _ hip; exact ⟨s, rfl, hip, rfl⟩
  | cons r rs ih =>
    intro s hl hip
    have h1 : ¬(r.position = some 2 ∧ s.in_position = false) :=
      fun h => hl r (List.mem_cons_self r rs) h.1
    have h2 : ¬(r.position = some (-2) ∧ s.in_position = true) := by
      rintro ⟨-, h⟩
      rw [hip] at h
      exact Bool.false_ne_true h
    have hstep : stepTrade s r =
        some { s with portfolio_values :=
          s.portfolio_values ++ [⟨r.date, s.capital + (s.shares : ℚ) * r.close⟩] } := by
      simp [stepTrade, h1, h2]
    obtain ⟨s', hrun, hip', htr⟩ :=
      ih { s with portfolio_values :=
            s.portfolio_values ++ [⟨r.date, s.capital + (s.shares : ℚ) * r.close⟩] }
        (fun x hx => hl x (List.mem_cons_of_mem r hx)) hip
    exact ⟨s', by simp [runSim, hstep, hrun], hip', htr⟩

theorem logOpen_append (ts us : List Trade) :
    ∀ b, logOpen b (ts ++ us) = (logOpen b ts).bind fun c => logOpen c us := by
  induction ts with
  | nil => intro b; simp [logOpen]
  | cons t ts ih =>
    intro b
    cases b <;> cases t <;> simp [logOpen, ih]

theorem stepTrade_inv (s : SimState) (r : SigRow)
    (hinv : SimInv s) (hp : 0 < r.close) :
    ∃ s', stepTrade s r = some s' ∧ SimInv s' := by
  obtain ⟨hcap, hshnn, hpos, haff, hlog⟩ := hinv
  have hpne : r.close ≠ 0 := ne_of_gt hp
  simp only [stepTrade]
  split_ifs with h1 h2 h3 h4
  · -- BUY with positive share count
    refine ⟨_, rfl, ?_, ?_, ?_, ?_, ?_⟩
    · simp only
      have hfl : (⌊s.capital / r.close⌋ : ℚ) ≤ s.capital / r.close := Int.floor_le _
      have : (⌊s.capital / r.close⌋ : ℚ) * r.close ≤ s.capital / r.close * r.close :=
        mul_le_mul_of_nonneg_right hfl hp.le
      rw [div_mul_cancel₀ _ hpne] at this
      linarith
    · simpa using h2.le
    · simpa using h2
    · intro _
      refine ⟨hp, ?_⟩
      simp only
      rw [sub_add_cancel]
    · simp only
      rw [logOpen_append, hlog, h1.2]
      simp [logOpen]
  · -- BUY with zero share count: state unchanged apart from shares := 0
    have hnn : (0:ℤ) ≤ ⌊s.capital / r.close⌋ := by
      rw [Int.floor_nonneg]
      exact div_nonneg hcap hp.le
    have hz : ⌊s.capital / r.close⌋ = 0 := le_antisymm (not_lt.mp h2) hnn
    refine ⟨_, rfl, ?_, ?_, ?_, ?_, ?_⟩
    · simpa using hcap
    · simpa using hnn
    · simp [h1.2, hz]
    · simp [h1.2]
    · simpa [h1.2] using hlog
  · -- SELL branch with entry_price = 0 cannot happen on an invariant state
    exact absurd h4 (ne_of_gt (haff h3.2).1)
  · -- SELL
    have hip : s.in_position = true := h3.2
    refine ⟨_, rfl, ?_, ?_, ?_, ?_, ?_⟩
    · simp only
      have hq : (0:ℚ) ≤ (s.shares : ℚ) := by exact_mod_cast hshnn
      have := mul_nonneg hq hp.le
      linarith
    · simp
    · simp
    · simp
    · simp only
      rw [logOpen_append, hlog, hip]
      simp [logOpen]
  · -- no transition
    refine ⟨_, rfl, hcap, hshnn, hpos, haff, hlog⟩

theorem runSim_inv (l : List SigRow) :
    ∀ s, SimInv s → (∀ r ∈ l, 0 < r.close) →
      ∃ s', runSim s l = some s' ∧ SimInv s' := by
  induction l with
  | nil => intro s hs _; exact ⟨s, rfl, hs⟩
  | cons r rs ih =>
    intro s hs hpos
    obtain ⟨s1, hstep, hs1⟩ := stepTrade_inv s r hs (hpos r (by simp))
    obtain ⟨s', hrun, hs'⟩ := ih s1 hs1 (fun x hx => hpos x (by simp [hx]))
    exact ⟨s', by simp [runSim, hstep, hrun], hs'⟩

theorem maxQ_eq_max (a b : ℚ) : maxQ a b = max a b := by
  rw [maxQ]
  split_ifs with h
  · exact (max_eq_right h).symm
  · exact (max_eq_left (le_of_not_le h)).symm

theorem minQ_eq_min (a b : ℚ) : minQ a b = min a b := by
  rw [minQ]
  split_ifs with h
  · exact (min_eq_left h).symm
  · exact (min_eq_right (le_of_not_le h)).symm

theorem cummaxFrom_length (vs : List ℚ) : ∀ m, (cummaxFrom m vs).length = vs.length := by
  induction vs with
  | nil => intro m; rfl
  | cons v vs ih => intro m; simp [cummaxFrom, ih]

theorem cummax_length (values : List ℚ) : (cummax values).length = values.length := by
  cases values with
  | nil => rfl
  | cons v vs => simp [cummax, cummaxFrom_length]

theorem cummaxFrom_getD (vs : List ℚ) :
    ∀ m t, t < vs.length → (cummaxFrom m vs).getD t 0 = max m (specPeak vs t) := by
  induction vs with
  | nil => intro m t ht; simp at ht
  | cons v vs ih =>
    intro m t ht
    cases t with
    | zero => simp [cummaxFrom, specPeak, maxQ_eq_max]
    | succ t =>
      simp only [cummaxFrom, specPeak, List.getD_cons_succ]
      rw [ih _ t (by simpa using ht), maxQ_eq_max, max_assoc]

theorem cummax_getD (values : List ℚ) :
    ∀ t, t < values.length → (cummax values).getD t 0 = specPeak values t := by
  cases values with
  | nil => intro t ht; simp at ht
  | cons v vs =>
    intro t ht
    cases t with
    | zero => rfl
    | succ t =>
      simp only [cummax, List.getD_cons_succ, specPeak]
      rw [cummaxFrom_getD vs v t (by simpa using ht)]

theorem specPeak_pos (values : List ℚ) :
    ∀ t, t < values.length → (∀ v ∈ values, 0 < v) → 0 < specPeak values t := by
  induction values with
  | nil => intro t ht; simp at ht
  | cons v vs ih =>
    intro t ht hpos
    cases t with
    | zero => exact hpos v (List.mem_cons_self v vs)
    | succ t =>
      rw [specPeak]
      exact lt_max_of_lt_left (hpos v (List.mem_cons_self v vs))

theorem getD_le_specPeak (values : List ℚ) :
    ∀ t, t < values.length → values.getD t 0 ≤ specPeak values t := by
  induction values with
  | nil => intro t ht; simp at ht
  | cons v vs ih =>
    intro t ht
    cases t with
    | zero => simp [specPeak]
    | succ t =>
      simp only [specPeak, List.getD_cons_succ]
      exact le_max_of_le_right (ih t (by simpa using ht))

theorem foldl_minQ_le_init (l : List ℚ) : ∀ d, l.foldl minQ d ≤ d := by
  induction l with
  | nil => intro d; exact le_refl d
  | cons v vs ih =>
    intro d
    calc vs.foldl minQ (minQ d v) ≤ minQ d v := ih _
    _ ≤ d := by rw [minQ_eq_min]; exact min_le_left _ _

theorem foldl_minQ_le_mem (l : List ℚ) : ∀ d x, x ∈ l → l.foldl minQ d ≤ x := by
  induction l with
  | nil => intro d x hx; simp at hx
  | cons v vs ih =>
    intro d x hx
    rcases List.mem_cons.mp hx with h | h
    · subst h
      calc vs.foldl minQ (minQ d x) ≤ minQ d x := foldl_minQ_le_init vs _
      _ ≤ x := by rw [minQ_eq_min]; exact min_le_right _ _
    · exact ih _ x h

theorem foldl_minQ_attained (l : List ℚ) :
    ∀ d, l.foldl minQ d = d ∨ l.foldl minQ d ∈ l := by
  induction l with
  | nil => intro d; exact Or.inl rfl
  | cons v vs ih =>
    intro d
    rcases ih (minQ d v) with h | h
    · rw [List.foldl_cons] at *
      rcases (by rw [minQ]; split_ifs <;> simp : minQ d v = d ∨ minQ d v = v) with h' | h'
      · exact Or.inl (h.trans h')
      · exact Or.inr (by rw [h, h']; exact List.mem_cons_self v vs)
    · exact Or.inr (List.mem_cons_of_mem v h)

theorem drawdownsOf_length (values : List ℚ) :
    (drawdownsOf values).length = values.length := by
  rw [drawdownsOf]
  simp [cummax_length]

theorem drawdownsOf_getD (values : List ℚ) :
    ∀ t, t < values.length → (drawdownsOf values).getD t 0 = specDrawdown values t := by
  intro t ht
  have hlen : t < (List.zipWith (fun v p => (v - p) / p * 100) values (cummax values)).length := by
    rw [List.length_zipWith, cummax_length, min_self]
    exact ht
  have hc : t < (cummax values).length := by rw [cummax_length]; exact ht
  rw [drawdownsOf, List.getD_eq_getElem _ _ hlen, List.getElem_zipWith,
    ← List.getD_eq_getElem values 0 ht, ← List.getD_eq_getElem (cummax values) 0 hc,
    cummax_getD values t ht, specDrawdown]

theorem specDrawdown_nonpos (values : List ℚ) (hpos : ∀ v ∈ values, 0 < v) :
    ∀ t, t < values.length → specDrawdown values t ≤ 0 := by
  intro t ht
  rw [specDrawdown]
  have hp := specPeak_pos values t ht hpos
  have hv := getD_le_specPeak values t ht
  have hdiv : (values.getD t 0 - specPeak values t) / specPeak values t ≤ 0 :=
    div_nonpos_iff.mpr (Or.inr ⟨sub_nonpos.mpr hv, hp.le⟩)
  have := mul_le_mul_of_nonneg_right hdiv (by norm_num : (0:ℚ) ≤ 100)
  rwa [zero_mul] at this

/-! Claim theorems. -/

/-- Claim C1.  Contrary to the claim, when no rows survive the dropna
warm-up filtering (in particular on the empty price series) the
simulator does not return a degenerate result: the final-price lookup
df.iloc[-1] runs on an empty frame and raises IndexError (modelled as
`none`), so no result with finalValue = initialCapital is produced. -/
theorem no_surviving_rows_raises (rows : List SigRow) (cap : ℚ)
    (h : simFilter rows = []) :
    simulate_trades rows cap = none := by
  rw [simulate_trades, h]
  rfl

/-- Claim C2.  A BUY-triggering row (positionDelta +2, not in position)
with positive close price: when floor(cash/price) = 0 nothing but the
portfolio snapshot changes, otherwise exactly floor(cash/price) shares
are bought, cash decreases by shares * price, in_position is set with
entry price/date, and exactly one BUY trade with those fields is
appended. -/
theorem buy_transition_spec (s : SimState) (r : SigRow)
    (hip : s.in_position = false) (hsh : s.shares = 0)
    (hd : r.position = some 2) (hp : 0 < r.close) :
    (⌊s.capital / r.close⌋ = 0 →
      stepTrade s r =
        some { s with portfolio_values :=
          s.portfolio_values ++ [⟨r.date, s.capital⟩] }) ∧
    (0 < ⌊s.capital / r.close⌋ →
      stepTrade s r =
        some { capital := s.capital - (⌊s.capital / r.close⌋ : ℚ) * r.close,
               shares := ⌊s.capital / r.close⌋,
               trades := s.trades ++ [Trade.buy r.date r.close ⌊s.capital / r.close⌋],
               portfolio_values := s.portfolio_values ++ [⟨r.date, s.capital⟩],
               in_position := true,
               entry_price := r.close,
               entry_date := some r.date }) := by
  have hpne : r.close ≠ 0 := ne_of_gt hp
  constructor
  · intro h0
    simp [stepTrade, hip, hd, hpne, h0, hsh]
  · intro hlt
    simp [stepTrade, hip, hd, hpne, hlt, hsh]

/-- Claim C3.  A SELL-triggering row (positionDelta -2, in position)
adds shares * price to cash, appends exactly one SELL trade carrying
profit = (price - entryPrice) * shares and
profitPct = (price - entryPrice) / entryPrice * 100, and resets shares,
in_position, entry price and entry date. -/
theorem sell_transition_spec (s : SimState) (r : SigRow)
    (hip : s.in_position = true) (hd : r.position = some (-2))
    (he : s.entry_price ≠ 0) :
    stepTrade s r =
      some { capital := s.capital + (s.shares : ℚ) * r.close,
             shares := 0,
             trades := s.trades ++
               [Trade.sell r.date r.close s.shares
                 ((r.close - s.entry_price) * (s.shares : ℚ))
                 ((r.close - s.entry_price) / s.entry_price * 100)],
             portfolio_values := s.portfolio_values ++
               [⟨r.date, s.capital + (s.shares : ℚ) * r.close⟩],
             in_position := false,
             entry_price := 0,
             entry_date := none } := by
  simp [stepTrade, hip, hd, he]

/-- Claim C4.  Every row that survives dropna filtering has both moving
averages defined, its Signal is 1 exactly when SMA_Short > SMA_Long and
-1 otherwise (equality included), and the neutral Signal 0 never reaches
the simulator. -/
theorem filtered_signal_spec (ind : List IndRow) (r : SigRow)
    (hr : r ∈ simFilter (generate_signals ind)) :
    ∃ a b, r.smaShort = some a ∧ r.smaLong = some b ∧
      r.signal = (if b < a then (1:ℤ) else -1) ∧ r.signal ≠ 0 := by
  rw [simFilter, List.mem_filter] at hr
  obtain ⟨hmem, hkeep⟩ := hr
  rw [keepRow, Bool.and_eq_true, Bool.and_eq_true] at hkeep
  obtain ⟨⟨hs, hl⟩, -⟩ := hkeep
  obtain ⟨a, ha⟩ := Option.isSome_iff_exists.mp hs
  obtain ⟨b, hb⟩ := Option.isSome_iff_exists.mp hl
  have hsig := genRows_signal ind none r hmem
  rw [ha, hb] at hsig
  refine ⟨a, b, ha, hb, ?_, ?_⟩
  · rw [hsig]; rfl
  · rw [hsig, signalOf]
    split_ifs <;> decide

/-- Claim C5.  Each simulated row appends exactly one portfolio snapshot
for that row's date, and although the code computes the value before the
day's transition, the recorded value equals cash + shares * close of the
state after the same-day transition at that close (portfolio value is
conserved by a transition executed at the snapshot's own price). -/
theorem snapshot_per_row_spec (s : SimState) (r : SigRow)
    (hcap : 0 ≤ s.capital) (hsh0 : s.in_position = false → s.shares = 0)
    (hp : 0 < r.close) (s' : SimState) (hstep : stepTrade s r = some s') :
    s'.portfolio_values =
      s.portfolio_values ++ [⟨r.date, s'.capital + (s'.shares : ℚ) * r.close⟩] := by
  have hpne : r.close ≠ 0 := ne_of_gt hp
  simp only [stepTrade] at hstep
  split_ifs at hstep with h1 h2 h3 h4
  all_goals (rw [Option.some.injEq] at hstep; subst hstep)
  all_goals simp
  · exact Or.inl (hsh0 h1.2)
  · left
    have hnn : (0:ℤ) ≤ ⌊s.capital / r.close⌋ := by
      rw [Int.floor_nonneg]
      exact div_nonneg hcap hp.le
    rw [hsh0 h1.2]
    exact (le_antisymm (not_lt.mp h2) hnn).symm

/-- Claim C6.  The code's max_drawdown (minimum of the Drawdown column
over the cummax Peak column) equals the minimum over the trajectory of
(value(t) - peak(t)) / peak(t) * 100 with peak the cumulative maximum:
it is a lower bound of all the spec-side drawdowns and is attained at
one of them; it is at most 0 for a non-empty positive trajectory, and it
is 0 for the empty trajectory. -/
theorem max_drawdown_spec (values : List ℚ) (hne : values ≠ [])
    (hpos : ∀ v ∈ values, 0 < v) :
    maxDrawdownOf values ≤ 0 ∧
    (∀ t, t < values.length → maxDrawdownOf values ≤ specDrawdown values t) ∧
    (∃ t, t < values.length ∧ maxDrawdownOf values = specDrawdown values t) ∧
    maxDrawdownOf [] = 0 := by
  have hdne : drawdownsOf values ≠ [] := by
    intro h
    apply hne
    have hl := drawdownsOf_length values
    rw [h] at hl
    exact List.length_eq_zero.mp hl.symm
  obtain ⟨d, ds, hds⟩ := List.exists_cons_of_ne_nil hdne
  have hmd : maxDrawdownOf values = ds.foldl minQ d := by rw [maxDrawdownOf, hds]
  have hle : ∀ x ∈ drawdownsOf values, maxDrawdownOf values ≤ x := by
    intro x hx
    rw [hds] at hx
    rw [hmd]
    rcases List.mem_cons.mp hx with h | h
    · rw [h]; exact foldl_minQ_le_init ds d
    · exact foldl_minQ_le_mem ds d x h
  have hbound : ∀ t, t < values.length → maxDrawdownOf values ≤ specDrawdown values t := by
    intro t ht
    have hlen : t < (drawdownsOf values).length := by rw [drawdownsOf_length]; exact ht
    have hmem : (drawdownsOf values).getD t 0 ∈ drawdownsOf values := by
      rw [List.getD_eq_getElem _ _ hlen]
      exact List.getElem_mem _
    have := hle _ hmem
    rwa [drawdownsOf_getD values t ht] at this
  have hatt : ∃ t, t < values.length ∧ maxDrawdownOf values = specDrawdown values t := by
    have hmem : maxDrawdownOf values ∈ drawdownsOf values := by
      rw [hmd, hds]
      rcases foldl_minQ_attained ds d with h | h
      · rw [h]; exact List.mem_cons_self d ds
      · exact List.mem_cons_of_mem d h
    obtain ⟨i, hi, hgi⟩ := List.getElem_of_mem hmem
    have hilen : i < values.length := by rw [← drawdownsOf_length values]; exact hi
    refine ⟨i, hilen, ?_⟩
    rw [← drawdownsOf_getD values i hilen, List.getD_eq_getElem _ _ hi, hgi]
  refine ⟨?_, hbound, hatt, rfl⟩
  obtain ⟨t, ht, heq⟩ := hatt
  rw [heq]
  exact specDrawdown_nonpos values hpos t ht

/-- Claim C7.  num_trades counts exactly the SELL trades; win_rate is 0
when there is no SELL trade and otherwise equals the number of
profitable SELLs over all SELLs times 100; in all cases it lies in
[0, 100]. -/
theorem win_rate_spec (trades : List Trade) :
    numTradesOf trades = trades.countP isSell ∧
    (numTradesOf trades = 0 → winRateOf trades = 0) ∧
    (0 < numTradesOf trades →
      winRateOf trades =
        (trades.countP (fun t => isSell t && decide (0 < tradeProfit t)) : ℚ) /
          (numTradesOf trades : ℚ) * 100) ∧
    0 ≤ winRateOf trades ∧ winRateOf trades ≤ 100 := by
  have hcount : numTradesOf trades = trades.countP isSell :=
    (List.countP_eq_length_filter _ _).symm
  have hwinc : ((trades.filter isSell).filter fun t => 0 < tradeProfit t).length =
      trades.countP (fun t => isSell t && decide (0 < tradeProfit t)) := by
    rw [List.filter_filter, List.countP_eq_length_filter]
    congr 1
    apply List.filter_congr
    intro t _
    rw [Bool.and_comm]
  have hwle : ((trades.filter isSell).filter fun t => 0 < tradeProfit t).length ≤
      numTradesOf trades := List.length_filter_le _ _
  constructor
  · exact hcount
  constructor
  · intro h0
    rw [winRateOf]
    rw [numTradesOf] at h0
    simp [h0]
  constructor
  · intro hpos
    rw [winRateOf]
    rw [numTradesOf] at hpos
    rw [if_pos hpos, hwinc]
    rfl
  · by_cases hpos : 0 < (trades.filter isSell).length
    · have hrate : winRateOf trades =
          (((trades.filter isSell).filter fun t => 0 < tradeProfit t).length : ℚ) /
            ((trades.filter isSell).length : ℚ) * 100 := by
        rw [winRateOf, if_pos hpos]
      have hn : (0:ℚ) < ((trades.filter isSell).length : ℚ) := by exact_mod_cast hpos
      constructor
      · rw [hrate]
        positivity
      · rw [hrate]
        have hdiv : (((trades.filter isSell).filter fun t => 0 < tradeProfit t).length : ℚ) /
            ((trades.filter isSell).length : ℚ) ≤ 1 := by
          rw [div_le_one hn]
          exact_mod_cast hwle
        calc _ ≤ (1:ℚ) * 100 := mul_le_mul_of_nonneg_right hdiv (by norm_num)
        _ = 100 := by norm_num
    · have : winRateOf trades = 0 := by rw [winRateOf, if_neg hpos]
      rw [this]
      norm_num

/-- Claim C8 counterexample.  On a BUY-triggering row with negative
close price the simulator does not leave the simulation state
unchanged: starting flat with cash 100 and shares 0, the row at close
-5 overwrites the shares variable with floor(100 / -5) = -20, because
the assignment shares = capital // price precedes the shares > 0 guard.
This refutes the claim at a concrete input within plain (non-zero
divisor) float arithmetic. -/
theorem negative_price_buy_cex :
    (initState 100).shares = 0 ∧
    (stepTrade (initState 100) ⟨7, -5, some 1, some 1, -1, some 2⟩).map SimState.shares =
      some (-20) := by
  constructor
  · rfl
  · have hfl : ⌊(100:ℚ) / (-5)⌋ = -20 := by
      rw [show (100:ℚ) / (-5) = ((-20:ℤ) : ℚ) by norm_num, Int.floor_intCast]
    norm_num [stepTrade, initState, hfl]

/-- Claim C8 as amended.  On a BUY-triggering row with negative close
price and positive cash the simulator raises nothing and appends no
trade; cash and in_position are unchanged, but the shares variable is
overwritten with the negative value floor(cash / price), so the
simulation state is not fully unchanged.  (At close price exactly 0 the
source performs a numpy float64 division by zero, which warns and
produces inf/nan rather than raising; that float behaviour is outside
this rational model, which abstains there.) -/
theorem negative_price_buy_spec (s : SimState) (r : SigRow)
    (hip : s.in_position = false) (hd : r.position = some 2)
    (hneg : r.close < 0) (hcap : 0 < s.capital) :
    stepTrade s r =
      some { s with
        portfolio_values :=
          s.portfolio_values ++ [⟨r.date, s.capital + (s.shares : ℚ) * r.close⟩],
        shares := ⌊s.capital / r.close⌋ } ∧
    ⌊s.capital / r.close⌋ < 0 := by
  have hdiv : s.capital / r.close < 0 := div_neg_of_pos_of_neg hcap hneg
  have hfl : ⌊s.capital / r.close⌋ < 0 := by
    by_contra h
    push_neg at h
    rw [Int.floor_nonneg] at h
    linarith
  refine ⟨?_, hfl⟩
  simp [stepTrade, hip, hd, ne_of_lt hneg, lt_asymm hfl]

/-- Claim C9 counterexample.  With shortWindow = 2 > longWindow = 1 the
pipeline is not a no-signal/no-trade run: on the price series
[5, 3, 10, 2] it generates a +2 crossover and buys 5000 shares at
price 2, refuting the claim. -/
theorem inverted_windows_trade_cex :
    (simulate_trades (generate_signals (calculate_moving_averages
        [⟨0, 5⟩, ⟨1, 3⟩, ⟨2, 10⟩, ⟨3, 2⟩] 2 1)) 10000).map SimResult.trades =
      some [Trade.buy 3 2 5000] := by
  norm_num [simulate_trades, calculate_moving_averages, maRows, rollingMean,
    generate_signals, genRows, signalOf, simFilter, keepRow, initState, runSim, stepTrade]

/-- Claim C9 as amended.  When the two windows are equal the two moving
averages coincide on every row, so no positionDelta of +2 or -2 is ever
generated and any run of the simulator that completes has an empty trade
log; for shortWindow strictly greater than longWindow, crossovers and
trades can occur (see the counterexample). -/
theorem equal_windows_no_trades (prices : List PriceRow) (w : ℕ) (cap : ℚ) :
    (∀ r ∈ generate_signals (calculate_moving_averages prices w w),
        r.position ≠ some 2 ∧ r.position ≠ some (-2)) ∧
    (∀ res,
        simulate_trades (generate_signals (calculate_moving_averages prices w w)) cap =
          some res →
        res.trades = []) := by
  have hcross : ∀ r ∈ generate_signals (calculate_moving_averages prices w w),
      r.position ≠ some 2 ∧ r.position ≠ some (-2) := by
    intro r hr
    have hsmall := genRows_small (calculate_moving_averages prices w w) none
      (fun x hx => maRows_eq_windows _ w 0 prices x hx)
      (by intro p hp; exact absurd hp (by simp))
      r hr
    constructor
    · intro h
      rcases hsmall 2 h with h' | h' | h' <;> omega
    · intro h
      rcases hsmall (-2) h with h' | h' | h' <;> omega
  refine ⟨hcross, ?_⟩
  intro res hres
  have hfil : ∀ r ∈ simFilter (generate_signals (calculate_moving_averages prices w w)),
      r.position ≠ some 2 :=
    fun r hr => (hcross r (List.mem_of_mem_filter hr)).1
  obtain ⟨s', hrun, hip', htr⟩ := runSim_no_buy _ (initState cap) hfil rfl
  rw [simulate_trades, hrun] at hres
  cases hlast : (simFilter (generate_signals (calculate_moving_averages prices w w))).getLast? with
  | none => rw [hlast] at hres; simp at hres
  | some lastRow =>
    rw [hlast] at hres
    simp only [hip', Bool.false_eq_true, if_false, Option.some.injEq] at hres
    subst hres
    exact htr

/-- Claim C10.  From the initial state with non-negative capital, after
any prefix of the filtered signal rows (all with positive close), the
simulator reaches a state satisfying the invariant: non-negative cash,
non-negative shares, in_position exactly when shares are held, shares
exactly what the cash at entry could purchase at the entry price, and a
trade log that strictly alternates BUY, SELL, ... starting with BUY. -/
theorem simulation_state_invariant (rows : List SigRow) (cap : ℚ)
    (hcap : 0 ≤ cap) (hpos : ∀ r ∈ rows, 0 < r.close) (k : ℕ) :
    ∃ s', runSim (initState cap) ((simFilter rows).take k) = some s' ∧ SimInv s' := by
  apply runSim_inv
  · exact ⟨hcap, le_refl 0, by simp [initState], by simp [initState], rfl⟩
  · intro r hr
    exact hpos r (List.mem_of_mem_filter (List.take_subset k _ hr))

/-! Witnesses. -/

/-- Witness for C1 at a concrete input: a two-row price frame with
windows 20/50 loses every row to warm-up filtering and the simulator
raises (returns `none`). -/
theorem no_surviving_rows_raises_witness :
    simulate_trades (generate_signals (calculate_moving_averages
      [⟨0, 100⟩, ⟨1, 101⟩] 20 50)) 10000 = none :=
  no_surviving_rows_raises _ 10000 rfl

/-- Witness for C2 at a concrete input: cash 10, close 2, so 5 shares
are bought for 10 and the BUY trade is recorded. -/
theorem buy_transition_spec_witness :
    stepTrade (initState 10) ⟨0, 2, some 2, some 1, 1, some 2⟩ =
      some { capital := 0, shares := 5, trades := [Trade.buy 0 2 5],
             portfolio_values := [⟨0, 10⟩], in_position := true,
             entry_price := 2, entry_date := some 0 } := by
  have hfl : ⌊(initState 10).capital / ((⟨0, 2, some 2, some 1, 1, some 2⟩ : SigRow)).close⌋ = 5 := by
    show ⌊(10:ℚ) / 2⌋ = 5
    rw [show (10:ℚ) / 2 = ((5:ℤ) : ℚ) by norm_num, Int.floor_intCast]
  have h := (buy_transition_spec (initState 10) ⟨0, 2, some 2, some 1, 1, some 2⟩
    rfl rfl rfl (by norm_num)).2 (by rw [hfl]; norm_num)
  rw [h, hfl]
  norm_num [initState]

/-- Witness for C3 at a concrete input: 5 shares entered at 2 are sold
at 3; cash 1 becomes 16 and the SELL trade carries profit 5 and
profit percentage 50. -/
theorem sell_transition_spec_witness :
    stepTrade ⟨1, 5, [Trade.buy 0 2 5], [], true, 2, some 0⟩
        ⟨3, 3, some 1, some 2, -1, some (-2)⟩ =
      some { capital := 16, shares := 0,
             trades := [Trade.buy 0 2 5, Trade.sell 3 3 5 5 50],
             portfolio_values := [⟨3, 16⟩], in_position := false,
             entry_price := 0, entry_date := none } := by
  have h := sell_transition_spec ⟨1, 5, [Trade.buy 0 2 5], [], true, 2, some 0⟩
    ⟨3, 3, some 1, some 2, -1, some (-2)⟩ rfl rfl (by norm_num)
  rw [h]
  norm_num

/-- Witness for C4 at a concrete input: the surviving second row has
SMA_Short 4 > SMA_Long 3 and Signal 1. -/
theorem filtered_signal_spec_witness :
    ∃ a b, (⟨1, 6, some 4, some 3, 1, some 2⟩ : SigRow).smaShort = some a ∧
      (⟨1, 6, some 4, some 3, 1, some 2⟩ : SigRow).smaLong = some b ∧
      (⟨1, 6, some 4, some 3, 1, some 2⟩ : SigRow).signal = (if b < a then (1:ℤ) else -1) ∧
      (⟨1, 6, some 4, some 3, 1, some 2⟩ : SigRow).signal ≠ 0 :=
  filtered_signal_spec [⟨0, 5, some 1, some 2⟩, ⟨1, 6, some 4, some 3⟩]
    ⟨1, 6, some 4, some 3, 1, some 2⟩ (by decide)

/-- Witness for C5 at a concrete input: a no-transition row at close 4
appends the single snapshot with value 10 = cash + shares * close of the
post-row state. -/
theorem snapshot_per_row_spec_witness :
    (⟨10, 0, [], [⟨0, (10:ℚ)⟩], false, 0, none⟩ : SimState).portfolio_values =
      (initState 10).portfolio_values ++
        [⟨0, (⟨10, 0, [], [⟨0, (10:ℚ)⟩], false, 0, none⟩ : SimState).capital +
          ((⟨10, 0, [], [⟨0, (10:ℚ)⟩], false, 0, none⟩ : SimState).shares : ℚ) *
          (⟨0, 4, some 1, some 1, -1, some 0⟩ : SigRow).close⟩] := by
  refine snapshot_per_row_spec (initState 10) ⟨0, 4, some 1, some 1, -1, some 0⟩
    (by norm_num [initState]) (fun _ => rfl) (by norm_num) _ ?_
  norm_num [stepTrade, initState]

/-- Witness for C6 at a concrete input: the trajectory [4, 2]. -/
theorem max_drawdown_spec_witness :
    maxDrawdownOf [4, 2] ≤ 0 ∧
    (∀ t, t < ([4, 2] : List ℚ).length → maxDrawdownOf [4, 2] ≤ specDrawdown [4, 2] t) ∧
    (∃ t, t < ([4, 2] : List ℚ).length ∧ maxDrawdownOf [4, 2] = specDrawdown [4, 2] t) ∧
    maxDrawdownOf [] = 0 :=
  max_drawdown_spec [4, 2] (by simp)
    (by intro v hv; rcases List.mem_cons.mp hv with h | h
        · rw [h]; norm_num
        · rw [List.mem_singleton.mp h]; norm_num)

/-- Witness for C8 as amended, at a concrete input: close -5 with cash
100. -/
theorem negative_price_buy_spec_witness :
    stepTrade (initState 100) ⟨7, -5, some 1, some 1, -1, some 2⟩ =
      some { initState 100 with
        portfolio_values := (initState 100).portfolio_values ++
          [⟨7, (initState 100).capital +
            ((initState 100).shares : ℚ) * (⟨7, -5, some 1, some 1, -1, some 2⟩ : SigRow).close⟩],
        shares := ⌊(initState 100).capital / (⟨7, -5, some 1, some 1, -1, some 2⟩ : SigRow).close⌋ } ∧
    ⌊(initState 100).capital / (⟨7, -5, some 1, some 1, -1, some 2⟩ : SigRow).close⌋ < 0 :=
  negative_price_buy_spec (initState 100) ⟨7, -5, some 1, some 1, -1, some 2⟩ rfl rfl
    (by norm_num) (by norm_num [initState])

/-- Witness for C10 at a concrete input: one BUY-triggering row at
close 2 from capital 10. -/
theorem simulation_state_invariant_witness :
    ∃ s', runSim (initState 10)
        ((simFilter [⟨0, 2, some 2, some 1, 1, some 2⟩]).take 1) = some s' ∧ SimInv s' :=
  simulation_state_invariant [⟨0, 2, some 2, some 1, 1, some 2⟩] 10 (by norm_num)
    (by intro r hr
        rw [List.mem_singleton.mp hr]
        norm_num) 1

end Backtester
